import Mathlib

/-!
Verification of the Google Drive connector
(`backend/onyx/connectors/google_drive/connector.py`).

The connector enumerates documents reachable in Google Drive, deduplicating
container visits through a shared visited-ID set, and batches the results.
This file gives a shallow embedding of the connector's pure logic:

* scope resolution (`clean_requested_drive_ids`),
* constructor normalization (`GoogleDriveConnector.init`),
* per-principal retrieval over the shared visited-ID ledger
  (`impersonate_user_for_retrieval`, `run_users`, `run_invocations`),
* the delegated-access (OAuth) retrieval dispatch (`manage_oauth_retrieval`),
* full-document and lightweight (slim) batch assembly
  (`extract_docs_from_google_drive`, `extract_slim_docs_from_google_drive`).

Network effects are abstracted: a listing call is recorded as the container ID
it was given (or an `OAuthCall` tag), conversion of an item is an arbitrary
function into `Option`, and the concurrent fan-out across principals is
modelled as a sequential interleaving (one atomic ledger update at a time).
-/

namespace GoogleDrive

/-- Python's `str.split(sep)` on a single separator character, over the
character list of the string (structurally recursive so that concrete runs
reduce). -/
def pySplitAux (sep : Char) : List Char → List Char → List (List Char)
  | [], acc => [acc.reverse]
  | c :: cs, acc =>
    if c = sep then acc.reverse :: pySplitAux sep cs []
    else pySplitAux sep cs (c :: acc)

/-- Python's `str.split(sep)` for a one-character separator. -/
def pySplit (sep : Char) (s : String) : List String :=
  (pySplitAux sep s.data []).map (fun cs => String.mk cs)

/-- Python's `str.strip()`: drop whitespace from both ends. -/
def pyStrip (s : String) : String :=
  String.mk
    (((s.data.dropWhile Char.isWhitespace).reverse.dropWhile
        Char.isWhitespace).reverse)

/-- Embeds `_extract_str_list_from_comma_str`: `None` and the empty string are
falsy in Python and give `[]`; otherwise split on commas, strip whitespace and
drop empty entries. -/
def extract_str_list_from_comma_str (string : Option String) : List String :=
  match string with
  | none => []
  | some s =>
    if s = "" then []
    else ((pySplit ',' s).map pyStrip).filter (fun x => x ≠ "")

/-- Embeds `_extract_ids_from_urls`: the ID is the last `/`-separated segment
of each URL. -/
def extract_ids_from_urls (urls : List String) : List String :=
  urls.map (fun url => (pySplit '/' url).getLastD "")

/-- Python truthiness of an optional string: `None` and `""` are falsy. -/
def pyStrBool (string : Option String) : Bool :=
  match string with
  | none => false
  | some s => !(s == "")

/-- Embeds `_clean_requested_drive_ids`: requested drive IDs absent from the
visible catalog are reinterpreted as folder IDs; requested folder IDs that are
visible drive IDs are filtered out; valid drive IDs are kept. -/
def clean_requested_drive_ids (requested_drive_ids requested_folder_ids
    all_drive_ids_available : Finset String) : Finset String × Finset String :=
  let invalid_requested_drive_ids := requested_drive_ids \ all_drive_ids_available
  let filtered_folder_ids := requested_folder_ids \ all_drive_ids_available
  let filtered_folder_ids :=
    if invalid_requested_drive_ids ≠ ∅ then
      filtered_folder_ids ∪ invalid_requested_drive_ids
    else filtered_folder_ids
  let valid_requested_drive_ids := requested_drive_ids \ invalid_requested_drive_ids
  (valid_requested_drive_ids, filtered_folder_ids)

/-- The constructor arguments of `GoogleDriveConnector.__init__` that feed the
scope normalization (deprecated parameters only produce warnings and are
omitted). -/
structure ConnectorConfig where
  include_shared_drives : Bool
  include_my_drives : Bool
  include_files_shared_with_me : Bool
  shared_drive_urls : Option String
  my_drive_emails : Option String
  shared_folder_urls : Option String
  batch_size : Nat
deriving DecidableEq

/-- The state a successfully constructed `GoogleDriveConnector` holds after
`__init__`: the normalized coarse flags, the explicit request sets, the batch
size, and the shared visited-ID set `_retrieved_ids`. -/
structure GoogleDriveConnector where
  include_files_shared_with_me : Bool
  include_my_drives : Bool
  include_shared_drives : Bool
  requested_shared_drive_ids : Finset String
  requested_my_drive_emails : Finset String
  requested_folder_ids : Finset String
  batch_size : Nat
  retrieved_ids : Finset String
deriving DecidableEq

/-- Embeds `GoogleDriveConnector.__init__`: raise `ConnectorValidationError`
when no scope at all is requested; otherwise force the three coarse flags off
when any explicit request string is truthy, parse the request strings into ID
sets, and create the empty visited-ID set `_retrieved_ids`. -/
def GoogleDriveConnector.init (cfg : ConnectorConfig) :
    Except String GoogleDriveConnector :=
  if !cfg.include_shared_drives && !cfg.include_my_drives
      && !cfg.include_files_shared_with_me
      && !(pyStrBool cfg.shared_folder_urls)
      && !(pyStrBool cfg.my_drive_emails)
      && !(pyStrBool cfg.shared_drive_urls) then
    Except.error "Nothing to index. Please specify at least one of the following"
  else
    let specific_requests_made :=
      pyStrBool cfg.shared_drive_urls || pyStrBool cfg.my_drive_emails
        || pyStrBool cfg.shared_folder_urls
    Except.ok
      { include_files_shared_with_me :=
          if specific_requests_made then false else cfg.include_files_shared_with_me
        include_my_drives :=
          if specific_requests_made then false else cfg.include_my_drives
        include_shared_drives :=
          if specific_requests_made then false else cfg.include_shared_drives
        requested_shared_drive_ids :=
          (extract_ids_from_urls
            (extract_str_list_from_comma_str cfg.shared_drive_urls)).toFinset
        requested_my_drive_emails :=
          (extract_str_list_from_comma_str cfg.my_drive_emails).toFinset
        requested_folder_ids :=
          (extract_ids_from_urls
            (extract_str_list_from_comma_str cfg.shared_folder_urls)).toFinset
        batch_size := cfg.batch_size
        retrieved_ids := ∅ }

/-- A truthy request string is exactly a nonempty extracted list's source. -/
theorem pyStrBool_of_extract_ne_nil (o : Option String)
    (h : extract_str_list_from_comma_str o ≠ []) : pyStrBool o = true := by
  match o with
  | none => simp [extract_str_list_from_comma_str] at h
  | some s =>
    by_cases hs : s = ""
    · simp [extract_str_list_from_comma_str, hs] at h
    · simp [pyStrBool, hs]

/-- C2: a requested drive ID absent from the visible drive-ID set ends up in
the resolved folder set and not in the resolved drive set; a requested drive
ID present in the visible set stays in the resolved drive set. -/
theorem clean_requested_drive_ids_spec
    (requested_drive_ids requested_folder_ids all_drive_ids_available : Finset String)
    (d : String) (hd : d ∈ requested_drive_ids) :
    (d ∉ all_drive_ids_available →
      d ∈ (clean_requested_drive_ids requested_drive_ids requested_folder_ids
            all_drive_ids_available).2 ∧
      d ∉ (clean_requested_drive_ids requested_drive_ids requested_folder_ids
            all_drive_ids_available).1) ∧
    (d ∈ all_drive_ids_available →
      d ∈ (clean_requested_drive_ids requested_drive_ids requested_folder_ids
            all_drive_ids_available).1) := by
  unfold clean_requested_drive_ids
  constructor
  · intro hav
    have hinv : d ∈ requested_drive_ids \ all_drive_ids_available :=
      Finset.mem_sdiff.mpr ⟨hd, hav⟩
    have hne : requested_drive_ids \ all_drive_ids_available ≠ ∅ :=
      Finset.ne_empty_of_mem hinv
    constructor
    · simp only [hne, if_pos, ne_eq, not_false_iff]
      exact Finset.mem_union_right _ hinv
    · simp [Finset.mem_sdiff, hd, hav]
  · intro hav
    have hninv : d ∉ requested_drive_ids \ all_drive_ids_available := by
      simp [Finset.mem_sdiff, hav]
    exact Finset.mem_sdiff.mpr ⟨hd, hninv⟩

/-- Witness for C2 at a concrete input: requested drive "X" is not among the
visible drives `{"D1"}`, so it moves to the folder set; requested drive "D1"
is visible and stays in the drive set. -/
theorem clean_requested_drive_ids_spec_witness :
    ("X" ∈ (clean_requested_drive_ids {"X", "D1"} ∅ {"D1"}).2 ∧
      "X" ∉ (clean_requested_drive_ids {"X", "D1"} ∅ {"D1"}).1) ∧
    "D1" ∈ (clean_requested_drive_ids {"X", "D1"} ∅ {"D1"}).1 :=
  ⟨(clean_requested_drive_ids_spec {"X", "D1"} ∅ {"D1"} "X" (by decide)).1
      (by decide),
    (clean_requested_drive_ids_spec {"X", "D1"} ∅ {"D1"} "D1" (by decide)).2
      (by decide)⟩

/-- C9 counterexample: the ID "a" is a requested folder ID and is present in
the visible drive-ID set, yet (being also a requested drive ID) it survives in
the resolved drive set — the claim that such an ID is in neither resolved set
is false. -/
theorem clean_requested_folder_id_visible_counterexample :
    "a" ∈ ({"a"} : Finset String) ∧ "a" ∈ ({"a"} : Finset String) ∧
      "a" ∈ (clean_requested_drive_ids {"a"} {"a"} {"a"}).1 := by
  decide

/-- C9 amended: a requested folder ID present in the visible drive-ID set is
removed from the resolved folder set; it is absent from the resolved drive set
as well provided it is not also a requested drive ID. -/
theorem clean_requested_folder_id_visible_amended
    (requested_drive_ids requested_folder_ids all_drive_ids_available : Finset String)
    (f : String) (_hf : f ∈ requested_folder_ids)
    (hav : f ∈ all_drive_ids_available) :
    f ∉ (clean_requested_drive_ids requested_drive_ids requested_folder_ids
          all_drive_ids_available).2 ∧
    (f ∉ requested_drive_ids →
      f ∉ (clean_requested_drive_ids requested_drive_ids requested_folder_ids
            all_drive_ids_available).1) := by
  unfold clean_requested_drive_ids
  constructor
  · by_cases hne : requested_drive_ids \ all_drive_ids_available = ∅
    · simp [hne, Finset.mem_sdiff, hav]
    · simp [hne, Finset.mem_sdiff, hav]
  · intro hrd
    simp [Finset.mem_sdiff, hrd]

/-- Witness for the amended C9 at a concrete input: folder "F" is visible as a
drive and not requested as a drive, so it is dropped from both resolved sets. -/
theorem clean_requested_folder_id_visible_amended_witness :
    "F" ∉ (clean_requested_drive_ids {"D"} {"F"} {"F"}).2 ∧
    "F" ∉ (clean_requested_drive_ids {"D"} {"F"} {"F"}).1 :=
  ⟨(clean_requested_folder_id_visible_amended {"D"} {"F"} {"F"} "F"
      (by decide) (by decide)).1,
    (clean_requested_folder_id_visible_amended {"D"} {"F"} {"F"} "F"
      (by decide) (by decide)).2 (by decide)⟩

/-- C7: when construction succeeds and any of the explicit request sets
(shared drives, my-drive emails, shared folders) is nonempty, the three coarse
flags on the constructed connector are false. -/
theorem init_specific_requests_force_flags_off (cfg : ConnectorConfig)
    (c : GoogleDriveConnector) (h : GoogleDriveConnector.init cfg = Except.ok c)
    (hne : c.requested_shared_drive_ids ≠ ∅ ∨ c.requested_my_drive_emails ≠ ∅ ∨
      c.requested_folder_ids ≠ ∅) :
    c.include_files_shared_with_me = false ∧ c.include_my_drives = false ∧
      c.include_shared_drives = false := by
  unfold GoogleDriveConnector.init at h
  split at h
  · exact absurd h (by simp)
  · have hc := (Except.ok.injEq _ _).mp h
    subst hc
    simp only at hne ⊢
    have hspec : (pyStrBool cfg.shared_drive_urls || pyStrBool cfg.my_drive_emails
        || pyStrBool cfg.shared_folder_urls) = true := by
      rcases hne with hne | hne | hne
      · have hlist : extract_str_list_from_comma_str cfg.shared_drive_urls ≠ [] := by
          intro hl
          apply hne
          simp [extract_ids_from_urls, hl]
        simp [pyStrBool_of_extract_ne_nil _ hlist]
      · have hlist : extract_str_list_from_comma_str cfg.my_drive_emails ≠ [] := by
          intro hl
          apply hne
          simp [hl]
        simp [pyStrBool_of_extract_ne_nil _ hlist]
      · have hlist : extract_str_list_from_comma_str cfg.shared_folder_urls ≠ [] := by
          intro hl
          apply hne
          simp [extract_ids_from_urls, hl]
        simp [pyStrBool_of_extract_ne_nil _ hlist]
    simp [hspec]

/-- Witness for C7 at a concrete input: a connector constructed with a shared
folder URL and all three coarse flags requested ends up with all flags off. -/
theorem init_specific_requests_force_flags_off_witness :
    ((⟨true, true, true, none, none, some "https://drive.google.com/folders/F1",
        10⟩ : ConnectorConfig) |> GoogleDriveConnector.init) =
      Except.ok (⟨false, false, false, ∅, ∅, {"F1"}, 10, ∅⟩ :
        GoogleDriveConnector) ∧
    (false = false ∧ false = false ∧ false = false) := by
  refine ⟨by rfl, ?_⟩
  have h := init_specific_requests_force_flags_off
    ⟨true, true, true, none, none, some "https://drive.google.com/folders/F1", 10⟩
    ⟨false, false, false, ∅, ∅, {"F1"}, 10, ∅⟩ (by rfl)
    (Or.inr (Or.inr (by decide)))
  exact h

/-- Outcome of the per-principal access probe
(`retry_builder(tries=3, delay=1)(get_root_folder_id)(drive_service)`): the
probe succeeds, fails with an `HttpError` carrying a status code, or fails
with some other exception. -/
inductive ProbeOutcome where
  | success
  | httpError (status : Nat)
  | otherError
deriving DecidableEq

/-- One principal of the impersonation run: the outcome of its access probe
and, modelled from the spec, the set of container IDs its personal-drive
enumeration marks in the ledger (`get_all_files_in_my_drive` receives
`update_traversed_ids_func` and, per the spec, marks every container ID it
encounters as it is entered). -/
structure UserScope where
  probe : ProbeOutcome
  my_drive_marks : Finset String
deriving DecidableEq

/-- Modelled from the spec: `crawl_folders_for_files`
(`onyx.connectors.google_drive.file_retrieval`, not under `src/`) recursively
enumerates folders: a folder already in the shared visited-ID set is skipped;
otherwise it is marked visited, its children are listed (one per-container
listing call, recorded in the trace), and the crawl descends into them. The
external folder structure is `children`, and `fuel` bounds the recursion
depth; the worklist starts from the requested folder IDs. Returns the trace
of container IDs passed to the listing call, and the grown ledger. -/
def crawl_folders_for_files (children : String → List String) :
    Nat → List String → Finset String → List String × Finset String
  | 0, _, ledger => ([], ledger)
  | _ + 1, [], ledger => ([], ledger)
  | fuel + 1, parent_id :: rest, ledger =>
    if parent_id ∈ ledger then
      crawl_folders_for_files children (fuel + 1) rest ledger
    else
      let r := crawl_folders_for_files children fuel
        (children parent_id ++ rest) (insert parent_id ledger)
      (parent_id :: r.1, r.2)
termination_by fuel ids _ => (fuel, ids.length)
decreasing_by
  · apply Prod.Lex.right
    simp
  · apply Prod.Lex.left
    omega

/-- Embeds `_impersonate_user_for_retrieval` (lines 303-368): probe first —
a 401 `HttpError` ends this principal's sequence empty without propagating,
any other error propagates; then the personal-drive phase marks its container
IDs, the drives remaining after subtracting the shared visited-ID set are each
listed once and marked (`get_files_in_shared_drive` marks the drive, modelled
from the spec), and the folders remaining after subtracting the visited set
are crawled recursively. Returns the trace of per-container listing calls and
the grown ledger, or the propagated probe error. -/
def impersonate_user_for_retrieval (children : String → List String)
    (fuel : Nat) (u : UserScope)
    (filtered_drive_ids filtered_folder_ids : Finset String)
    (retrieved_ids : Finset String) :
    Except ProbeOutcome (List String × Finset String) :=
  match u.probe with
  | ProbeOutcome.success =>
    let ledger1 := retrieved_ids ∪ u.my_drive_marks
    let remaining_drive_ids := filtered_drive_ids \ ledger1
    let ledger2 := ledger1 ∪ remaining_drive_ids
    let remaining_folders := filtered_folder_ids \ ledger2
    let f := crawl_folders_for_files children fuel
      (remaining_folders.sort (· ≤ ·)) ledger2
    Except.ok (remaining_drive_ids.sort (· ≤ ·) ++ f.1, f.2)
  | ProbeOutcome.httpError status =>
    if status = 401 then Except.ok ([], retrieved_ids)
    else Except.error (ProbeOutcome.httpError status)
  | ProbeOutcome.otherError => Except.error ProbeOutcome.otherError

/-- Embeds the principal fan-out of `_manage_service_account_retrieval` as a
sequential interleaving: each principal's retrieval runs over the shared
visited-ID set; a propagated error aborts the run. Returns the concatenated
trace of per-container listing calls, the final ledger, and the aborting
error if any. -/
def run_users (children : String → List String) (fuel : Nat)
    (filtered_drive_ids filtered_folder_ids : Finset String) :
    List UserScope → Finset String →
      List String × Finset String × Option ProbeOutcome
  | [], retrieved_ids => ([], retrieved_ids, none)
  | u :: us, retrieved_ids =>
    match impersonate_user_for_retrieval children fuel u filtered_drive_ids
        filtered_folder_ids retrieved_ids with
    | Except.error e => ([], retrieved_ids, some e)
    | Except.ok (t, l) =>
      let r := run_users children fuel filtered_drive_ids filtered_folder_ids us l
      (t ++ r.1, r.2.1, r.2.2)

/-- The scope one crawl invocation of the connector runs with (the resolved
drive and folder ID sets and the principal roster of that invocation). -/
structure InvocationScope where
  drive_ids : Finset String
  folder_ids : Finset String
  users : List UserScope

/-- Successive crawl invocations (`load_from_state`, `poll_source`,
`retrieve_all_slim_documents`) on one connector instance: each runs over the
same `_retrieved_ids` set, which no operation clears. Returns every
invocation's listing-call trace and the final visited-ID set. -/
def run_invocations (children : String → List String) (fuel : Nat) :
    List InvocationScope → Finset String → List (List String) × Finset String
  | [], retrieved_ids => ([], retrieved_ids)
  | inv :: invs, retrieved_ids =>
    let r := run_users children fuel inv.drive_ids inv.folder_ids inv.users
      retrieved_ids
    let rest := run_invocations children fuel invs r.2.1
    (r.1 :: rest.1, rest.2)

/-- The crawl skips visited folders, marks what it lists, grows the ledger
monotonically, and never lists the same container twice. -/
theorem crawl_folders_for_files_spec (children : String → List String)
    (fuel : Nat) (ids : List String) (ledger : Finset String) :
    ledger ⊆ (crawl_folders_for_files children fuel ids ledger).2 ∧
    (∀ x ∈ (crawl_folders_for_files children fuel ids ledger).1,
      x ∉ ledger ∧ x ∈ (crawl_folders_for_files children fuel ids ledger).2) ∧
    (crawl_folders_for_files children fuel ids ledger).1.Nodup := by
  induction fuel, ids, ledger using crawl_folders_for_files.induct children with
  | case1 ledger =>
    simp [crawl_folders_for_files]
  | case2 fuel ledger =>
    simp [crawl_folders_for_files]
  | case3 fuel parent_id rest ledger hmem ih =>
    simpa [crawl_folders_for_files, hmem] using ih
  | case4 fuel parent_id rest ledger hmem ih =>
    obtain ⟨ih1, ih2, ih3⟩ := ih
    simp only [crawl_folders_for_files, hmem, if_neg, not_false_iff]
    refine ⟨?_, ?_, ?_⟩
    · exact Finset.Subset.trans (Finset.subset_insert _ _) ih1
    · intro x hx
      rcases List.mem_cons.mp hx with hx | hx
      · subst hx
        exact ⟨hmem, ih1 (Finset.mem_insert_self _ _)⟩
      · obtain ⟨hx1, hx2⟩ := ih2 x hx
        exact ⟨fun hc => hx1 (Finset.mem_insert_of_mem hc), hx2⟩
    · refine List.nodup_cons.mpr ⟨?_, ih3⟩
      intro hc
      exact (ih2 _ hc).1 (Finset.mem_insert_self _ _)

/-- A successful per-principal retrieval lists only unvisited containers,
each at most once, marks everything it lists, and only grows the ledger. -/
theorem impersonate_user_for_retrieval_spec (children : String → List String)
    (fuel : Nat) (u : UserScope)
    (filtered_drive_ids filtered_folder_ids retrieved_ids : Finset String)
    (t : List String) (l : Finset String)
    (h : impersonate_user_for_retrieval children fuel u filtered_drive_ids
      filtered_folder_ids retrieved_ids = Except.ok (t, l)) :
    retrieved_ids ⊆ l ∧ (∀ x ∈ t, x ∉ retrieved_ids ∧ x ∈ l) ∧ t.Nodup := by
  match hp : u.probe with
  | ProbeOutcome.success =>
    rw [impersonate_user_for_retrieval, hp] at h
    simp only [Except.ok.injEq, Prod.mk.injEq] at h
    obtain ⟨ht, hl⟩ := h
    set ledger1 := retrieved_ids ∪ u.my_drive_marks with hledger1
    set remaining_drive_ids := filtered_drive_ids \ ledger1 with hrem
    set ledger2 := ledger1 ∪ remaining_drive_ids with hledger2
    set remaining_folders := filtered_folder_ids \ ledger2 with hremf
    obtain ⟨c1, c2, c3⟩ := crawl_folders_for_files_spec children fuel
      (remaining_folders.sort (· ≤ ·)) ledger2
    have hsub12 : retrieved_ids ⊆ ledger2 :=
      Finset.Subset.trans Finset.subset_union_left Finset.subset_union_left
    subst ht hl
    refine ⟨Finset.Subset.trans hsub12 c1, ?_, ?_⟩
    · intro x hx
      rcases List.mem_append.mp hx with hx | hx
      · have hxd : x ∈ remaining_drive_ids := (Finset.mem_sort _).mp hx
        have hxnr : x ∉ retrieved_ids := by
          intro hc
          exact (Finset.mem_sdiff.mp hxd).2 (Finset.mem_union_left _ hc)
        exact ⟨hxnr, c1 (Finset.mem_union_right _ hxd)⟩
      · obtain ⟨hx1, hx2⟩ := c2 x hx
        exact ⟨fun hc => hx1 (hsub12 hc), hx2⟩
    · refine List.Nodup.append (Finset.sort_nodup _ _) c3 ?_
      intro x hx1 hx2
      have hxd : x ∈ remaining_drive_ids := (Finset.mem_sort _).mp hx1
      exact (c2 x hx2).1 (Finset.mem_union_right _ hxd)
  | ProbeOutcome.httpError status =>
    rw [impersonate_user_for_retrieval, hp] at h
    by_cases hs : status = 401
    · simp only [hs, if_pos, Except.ok.injEq, Prod.mk.injEq] at h
      obtain ⟨ht, hl⟩ := h
      subst ht hl
      simp
    · simp [hs] at h
  | ProbeOutcome.otherError =>
    rw [impersonate_user_for_retrieval, hp] at h
    simp at h

/-- C1: over any run (any principal roster, any resolved drive and folder
scope, any starting ledger), every container ID in the trace of per-container
listing calls was not yet in the shared visited-ID set when reached, ends up
in the set, the set only grows (an ID, once added, is never removed), and no
container ID is passed to the listing call more than once. -/
theorem run_listing_calls_at_most_once (children : String → List String)
    (fuel : Nat) (filtered_drive_ids filtered_folder_ids : Finset String)
    (us : List UserScope) (retrieved_ids : Finset String) :
    (∀ x ∈ (run_users children fuel filtered_drive_ids filtered_folder_ids us
        retrieved_ids).1,
      x ∉ retrieved_ids ∧
      x ∈ (run_users children fuel filtered_drive_ids filtered_folder_ids us
        retrieved_ids).2.1) ∧
    retrieved_ids ⊆ (run_users children fuel filtered_drive_ids
      filtered_folder_ids us retrieved_ids).2.1 ∧
    (run_users children fuel filtered_drive_ids filtered_folder_ids us
      retrieved_ids).1.Nodup := by
  induction us generalizing retrieved_ids with
  | nil =>
    simp [run_users]
  | cons u us ih =>
    match himp : impersonate_user_for_retrieval children fuel u
        filtered_drive_ids filtered_folder_ids retrieved_ids with
    | Except.error e =>
      simp [run_users, himp]
    | Except.ok (t, l) =>
      obtain ⟨i1, i2, i3⟩ := impersonate_user_for_retrieval_spec children fuel u
        filtered_drive_ids filtered_folder_ids retrieved_ids t l himp
      obtain ⟨r1, r2, r3⟩ := ih l
      simp only [run_users, himp]
      refine ⟨?_, Finset.Subset.trans i1 r2, ?_⟩
      · intro x hx
        rcases List.mem_append.mp hx with hx | hx
        · obtain ⟨hx1, hx2⟩ := i2 x hx
          exact ⟨hx1, r2 hx2⟩
        · obtain ⟨hx1, hx2⟩ := r1 x hx
          exact ⟨fun hc => hx1 (i1 hc), hx2⟩
      · refine List.Nodup.append i3 r3 ?_
        intro x hx1 hx2
        exact (r1 x hx2).1 (i2 x hx1).2

/-- Witness for C1 at a concrete run: two principals share the scope
(drives `{"d"}`, folders `{"f"}` with `"f"` containing child `"g"`), the
second principal finds everything visited; the trace is duplicate-free,
fresh with respect to the starting ledger `{"a"}`, and the ledger persists. -/
theorem run_listing_calls_at_most_once_witness :
    (run_users (fun x => if x = "f" then ["g"] else []) 3 {"d"} {"f"}
        [⟨ProbeOutcome.success, ∅⟩, ⟨ProbeOutcome.success, ∅⟩]
        {"a"}).1.Nodup ∧
    "a" ∈ (run_users (fun x => if x = "f" then ["g"] else []) 3 {"d"} {"f"}
        [⟨ProbeOutcome.success, ∅⟩, ⟨ProbeOutcome.success, ∅⟩]
        {"a"}).2.1 :=
  ⟨(run_listing_calls_at_most_once (fun x => if x = "f" then ["g"] else []) 3
      {"d"} {"f"} [⟨ProbeOutcome.success, ∅⟩, ⟨ProbeOutcome.success, ∅⟩]
      {"a"}).2.2,
    (run_listing_calls_at_most_once (fun x => if x = "f" then ["g"] else []) 3
      {"d"} {"f"} [⟨ProbeOutcome.success, ∅⟩, ⟨ProbeOutcome.success, ∅⟩]
      {"a"}).2.1 (by decide)⟩

/-- C3: a principal whose access probe fails with a 401 `HttpError`
contributes an empty item sequence without propagating the error, and the run
over the remaining principals is unchanged; a probe failing with any other
`HttpError` status, or with a different exception, propagates the error. -/
theorem impersonation_probe_error_handling (children : String → List String)
    (fuel : Nat) (u : UserScope)
    (filtered_drive_ids filtered_folder_ids retrieved_ids : Finset String)
    (us : List UserScope) :
    (u.probe = ProbeOutcome.httpError 401 →
      impersonate_user_for_retrieval children fuel u filtered_drive_ids
          filtered_folder_ids retrieved_ids = Except.ok ([], retrieved_ids) ∧
      run_users children fuel filtered_drive_ids filtered_folder_ids (u :: us)
          retrieved_ids =
        run_users children fuel filtered_drive_ids filtered_folder_ids us
          retrieved_ids) ∧
    (∀ status, u.probe = ProbeOutcome.httpError status → status ≠ 401 →
      impersonate_user_for_retrieval children fuel u filtered_drive_ids
          filtered_folder_ids retrieved_ids =
        Except.error (ProbeOutcome.httpError status)) ∧
    (u.probe = ProbeOutcome.otherError →
      impersonate_user_for_retrieval children fuel u filtered_drive_ids
          filtered_folder_ids retrieved_ids =
        Except.error ProbeOutcome.otherError) := by
  refine ⟨?_, ?_, ?_⟩
  · intro hp
    have himp : impersonate_user_for_retrieval children fuel u
        filtered_drive_ids filtered_folder_ids retrieved_ids =
        Except.ok ([], retrieved_ids) := by
      rw [impersonate_user_for_retrieval, hp]
      simp
    refine ⟨himp, ?_⟩
    simp [run_users, himp]
  · intro status hp hs
    rw [impersonate_user_for_retrieval, hp]
    simp [hs]
  · intro hp
    rw [impersonate_user_for_retrieval, hp]

/-- Witness for C3 at concrete inputs: a 401 principal yields the empty
sequence and leaves the run over later principals unchanged; a 500 principal
and an unclassified failure propagate their errors. -/
theorem impersonation_probe_error_handling_witness :
    (impersonate_user_for_retrieval (fun _ => []) 2
        ⟨ProbeOutcome.httpError 401, ∅⟩ {"d"} ∅ ∅ = Except.ok ([], ∅) ∧
      run_users (fun _ => []) 2 {"d"} ∅
          [⟨ProbeOutcome.httpError 401, ∅⟩, ⟨ProbeOutcome.success, ∅⟩] ∅ =
        run_users (fun _ => []) 2 {"d"} ∅ [⟨ProbeOutcome.success, ∅⟩] ∅) ∧
    impersonate_user_for_retrieval (fun _ => []) 2
        ⟨ProbeOutcome.httpError 500, ∅⟩ {"d"} ∅ ∅ =
      Except.error (ProbeOutcome.httpError 500) ∧
    impersonate_user_for_retrieval (fun _ => []) 2 ⟨ProbeOutcome.otherError, ∅⟩
        {"d"} ∅ ∅ = Except.error ProbeOutcome.otherError :=
  ⟨(impersonation_probe_error_handling (fun _ => []) 2
      ⟨ProbeOutcome.httpError 401, ∅⟩ {"d"} ∅ ∅
      [⟨ProbeOutcome.success, ∅⟩]).1 rfl,
    (impersonation_probe_error_handling (fun _ => []) 2
      ⟨ProbeOutcome.httpError 500, ∅⟩ {"d"} ∅ ∅ []).2.1 500 rfl (by decide),
    (impersonation_probe_error_handling (fun _ => []) 2
      ⟨ProbeOutcome.otherError, ∅⟩ {"d"} ∅ ∅ []).2.2 rfl⟩

/-- C10: the visited-ID set carries over between successive crawl invocations
on the same connector instance: any container ID in the set (for example one
visited by an earlier invocation) is never passed to a listing call by any
later invocation, and it is still in the set after all of them. -/
theorem retrieved_ids_carry_over_invocations (children : String → List String)
    (fuel : Nat) (invs : List InvocationScope) (retrieved_ids : Finset String)
    (x : String) (hx : x ∈ retrieved_ids) :
    (∀ t ∈ (run_invocations children fuel invs retrieved_ids).1, x ∉ t) ∧
    x ∈ (run_invocations children fuel invs retrieved_ids).2 := by
  induction invs generalizing retrieved_ids with
  | nil =>
    simpa [run_invocations] using hx
  | cons inv invs ih =>
    obtain ⟨r1, r2, r3⟩ := run_listing_calls_at_most_once children fuel
      inv.drive_ids inv.folder_ids inv.users retrieved_ids
    obtain ⟨ih1, ih2⟩ := ih _ (r2 hx)
    simp only [run_invocations]
    refine ⟨?_, ih2⟩
    intro t ht
    rcases List.mem_cons.mp ht with ht | ht
    · subst ht
      intro hc
      exact (r1 x hc).1 hx
    · exact ih1 t ht

/-- Witness for C10 at a concrete input: container "v" already in the
visited-ID set is not listed by a later invocation that requests it as a
drive, and it remains in the set afterwards. -/
theorem retrieved_ids_carry_over_invocations_witness :
    "v" ∈ (run_invocations (fun _ => []) 2
        [⟨{"v", "w"}, ∅, [⟨ProbeOutcome.success, ∅⟩]⟩] {"v"}).2 :=
  (retrieved_ids_carry_over_invocations (fun _ => []) 2
    [⟨{"v", "w"}, ∅, [⟨ProbeOutcome.success, ∅⟩]⟩] {"v"} "v" (by decide)).2

/-- The retrieval network calls `_manage_oauth_retrieval` can make: the single
combined call (`get_all_files_for_oauth`), the drive-catalog listing
(`get_all_drive_ids`), a per-shared-drive listing
(`get_files_in_shared_drive`), and a per-folder listing
(`crawl_folders_for_files`). -/
inductive OAuthCall where
  | combined
  | catalog
  | driveCall (id : String)
  | folderCall (id : String)
deriving DecidableEq

/-- Embeds `_manage_oauth_retrieval` (lines 427-509): one combined call when
files-shared-with-me or my-drives is requested; if all three coarse flags are
set, return immediately; otherwise list the drive catalog, resolve the scope
(explicit requests through `_clean_requested_drive_ids`, else the whole
catalog when shared drives are included), list each resolved drive (marking
it), and crawl the resolved folders not already visited. Returns the call
trace and the grown visited-ID set. -/
def manage_oauth_retrieval (c : GoogleDriveConnector)
    (children : String → List String) (fuel : Nat)
    (all_drive_ids : Finset String) : List OAuthCall × Finset String :=
  let initial : List OAuthCall :=
    if c.include_files_shared_with_me || c.include_my_drives then
      [OAuthCall.combined]
    else []
  let all_requested := c.include_files_shared_with_me && c.include_my_drives
    && c.include_shared_drives
  if all_requested then (initial, c.retrieved_ids)
  else
    let scope :=
      if c.requested_shared_drive_ids ≠ ∅ ∨ c.requested_folder_ids ≠ ∅ then
        clean_requested_drive_ids c.requested_shared_drive_ids
          c.requested_folder_ids all_drive_ids
      else if c.include_shared_drives then (all_drive_ids, (∅ : Finset String))
      else ((∅ : Finset String), (∅ : Finset String))
    let drive_ids_to_retrieve := scope.1
    let ledger1 := c.retrieved_ids ∪ drive_ids_to_retrieve
    let remaining_folders := scope.2 \ ledger1
    let f := crawl_folders_for_files children fuel
      (remaining_folders.sort (· ≤ ·)) ledger1
    (initial ++ OAuthCall.catalog ::
        ((drive_ids_to_retrieve.sort (· ≤ ·)).map OAuthCall.driveCall ++
          f.1.map OAuthCall.folderCall),
      f.2)

/-- C4: in delegated-access (OAuth) mode with all three coarse flags set,
exactly one combined retrieval call is made — no catalog, per-drive or
per-folder call follows — and the visited-ID set is untouched. -/
theorem oauth_all_flags_single_combined_call (c : GoogleDriveConnector)
    (children : String → List String) (fuel : Nat)
    (all_drive_ids : Finset String)
    (h1 : c.include_files_shared_with_me = true)
    (h2 : c.include_my_drives = true) (h3 : c.include_shared_drives = true) :
    manage_oauth_retrieval c children fuel all_drive_ids =
      ([OAuthCall.combined], c.retrieved_ids) := by
  simp [manage_oauth_retrieval, h1, h2, h3]

/-- Witness for C4 at a concrete connector with all three flags set. -/
theorem oauth_all_flags_single_combined_call_witness :
    manage_oauth_retrieval
        (⟨true, true, true, ∅, ∅, ∅, 10, ∅⟩ : GoogleDriveConnector)
        (fun _ => []) 3 {"D1"} =
      ([OAuthCall.combined], (∅ : Finset String)) :=
  oauth_all_flags_single_combined_call
    (⟨true, true, true, ∅, ∅, ∅, 10, ∅⟩ : GoogleDriveConnector)
    (fun _ => []) 3 {"D1"} rfl rfl rfl

/-- Embeds the batch loop of `_extract_docs_from_google_drive` (lines
530-581): items are accumulated until `batch_size`, each accumulated batch is
converted (a conversion returning nothing or raising is dropped), and the
converted batch is yielded only when nonempty; the trailing partial batch is
handled the same way. `convert` returns `none` for an item whose conversion
fails or produces nothing. -/
def extract_docs_loop {α β : Type} (convert : α → Option β) (batch_size : Nat) :
    List α → List α → List (List β)
  | [], files_batch =>
    if files_batch.isEmpty then []
    else
      let documents := files_batch.filterMap convert
      if documents.isEmpty then [] else [documents]
  | file :: rest, files_batch =>
    let fb := files_batch ++ [file]
    if batch_size ≤ fb.length then
      let documents := fb.filterMap convert
      if documents.isEmpty then extract_docs_loop convert batch_size rest []
      else documents :: extract_docs_loop convert batch_size rest []
    else
      extract_docs_loop convert batch_size rest fb

/-- Embeds `_extract_docs_from_google_drive`: the full-document crawl over the
fetched item stream, starting from an empty accumulator. -/
def extract_docs_from_google_drive {α β : Type} (convert : α → Option β)
    (batch_size : Nat) (files : List α) : List (List β) :=
  extract_docs_loop convert batch_size files []

/-- Embeds `_extract_slim_docs_from_google_drive` (lines 601-626): each item
is projected by `build_slim_document` (dropped when falsy); whenever the
accumulated batch reaches `slim_batch_size` it is yielded and, when a callback
is present and signals stop, a `RuntimeError` is raised (recorded as the
`true` flag in the result) before any further batch; the trailing batch is
yielded unconditionally. `should_stop` is consulted with the number of
already-completed stop checks. -/
def extract_slim_docs_loop {α β : Type} (build_slim : α → Option β)
    (slim_batch_size : Nat) (has_callback : Bool) (should_stop : Nat → Bool) :
    List α → List β → Nat → List (List β) × Bool
  | [], slim_batch, _ => ([slim_batch], false)
  | file :: rest, slim_batch, checks =>
    let slim_batch1 :=
      match build_slim file with
      | some doc => slim_batch ++ [doc]
      | none => slim_batch
    if slim_batch_size ≤ slim_batch1.length then
      if has_callback && should_stop checks then ([slim_batch1], true)
      else
        let r := extract_slim_docs_loop build_slim slim_batch_size has_callback
          should_stop rest [] (checks + 1)
        (slim_batch1 :: r.1, r.2)
    else
      extract_slim_docs_loop build_slim slim_batch_size has_callback
        should_stop rest slim_batch1 checks

/-- Embeds `_extract_slim_docs_from_google_drive` from its entry point:
empty accumulator, no stop checks performed yet. The second component of the
result is `true` exactly when the run ended by raising the stop-signal
`RuntimeError`. -/
def extract_slim_docs_from_google_drive {α β : Type} (build_slim : α → Option β)
    (slim_batch_size : Nat) (has_callback : Bool) (should_stop : Nat → Bool)
    (files : List α) : List (List β) × Bool :=
  extract_slim_docs_loop build_slim slim_batch_size has_callback should_stop
    files [] 0

/-- Every batch the full-document loop emits is nonempty. -/
theorem extract_docs_loop_ne_nil {α β : Type} (convert : α → Option β)
    (batch_size : Nat) (files : List α) :
    ∀ files_batch, ∀ b ∈ extract_docs_loop convert batch_size files files_batch,
      b ≠ [] := by
  induction files with
  | nil =>
    intro files_batch b hb
    simp only [extract_docs_loop] at hb
    by_cases h1 : files_batch.isEmpty
    · simp [h1] at hb
    · rw [if_neg h1] at hb
      by_cases h2 : (files_batch.filterMap convert).isEmpty
      · simp [h2] at hb
      · rw [if_neg h2] at hb
        rcases List.mem_singleton.mp hb with rfl
        intro hc
        rw [hc] at h2
        exact h2 rfl
  | cons f rest ih =>
    intro files_batch b hb
    simp only [extract_docs_loop] at hb
    by_cases hfull : batch_size ≤ (files_batch ++ [f]).length
    · rw [if_pos hfull] at hb
      by_cases h2 : ((files_batch ++ [f]).filterMap convert).isEmpty
      · rw [if_pos h2] at hb
        exact ih [] b hb
      · rw [if_neg h2] at hb
        rcases List.mem_cons.mp hb with rfl | hb
        · intro hc
          rw [hc] at h2
          exact h2 rfl
        · exact ih [] b hb
    · rw [if_neg hfull] at hb
      exact ih _ b hb

/-- Every document in an emitted full-document batch is the successful
conversion of some input item (from the stream or the accumulator). -/
theorem extract_docs_loop_provenance {α β : Type} (convert : α → Option β)
    (batch_size : Nat) (files : List α) :
    ∀ files_batch, ∀ b ∈ extract_docs_loop convert batch_size files files_batch,
      ∀ d ∈ b, ∃ f, (f ∈ files ∨ f ∈ files_batch) ∧ convert f = some d := by
  induction files with
  | nil =>
    intro files_batch b hb d hd
    simp only [extract_docs_loop] at hb
    by_cases h1 : files_batch.isEmpty
    · simp [h1] at hb
    · rw [if_neg h1] at hb
      by_cases h2 : (files_batch.filterMap convert).isEmpty
      · simp [h2] at hb
      · rw [if_neg h2] at hb
        rcases List.mem_singleton.mp hb with rfl
        obtain ⟨f, hf, hconv⟩ := List.mem_filterMap.mp hd
        exact ⟨f, Or.inr hf, hconv⟩
  | cons f0 rest ih =>
    intro files_batch b hb d hd
    simp only [extract_docs_loop] at hb
    by_cases hfull : batch_size ≤ (files_batch ++ [f0]).length
    · rw [if_pos hfull] at hb
      have hfromLoop : b ∈ extract_docs_loop convert batch_size rest [] →
          ∃ f, (f ∈ f0 :: rest ∨ f ∈ files_batch) ∧ convert f = some d := by
        intro hb2
        obtain ⟨f, hf, hconv⟩ := ih [] b hb2 d hd
        rcases hf with hf | hf
        · exact ⟨f, Or.inl (List.mem_cons_of_mem _ hf), hconv⟩
        · simp at hf
      have hfromBatch : b = (files_batch ++ [f0]).filterMap convert →
          ∃ f, (f ∈ f0 :: rest ∨ f ∈ files_batch) ∧ convert f = some d := by
        rintro rfl
        obtain ⟨f, hf, hconv⟩ := List.mem_filterMap.mp hd
        rcases List.mem_append.mp hf with hf | hf
        · exact ⟨f, Or.inr hf, hconv⟩
        · rcases List.mem_singleton.mp hf with rfl
          exact ⟨f, Or.inl (List.mem_cons_self _ _), hconv⟩
      by_cases h2 : ((files_batch ++ [f0]).filterMap convert).isEmpty
      · rw [if_pos h2] at hb
        exact hfromLoop hb
      · rw [if_neg h2] at hb
        rcases List.mem_cons.mp hb with rfl | hb
        · exact hfromBatch rfl
        · exact hfromLoop hb
    · rw [if_neg hfull] at hb
      obtain ⟨f, hf, hconv⟩ := ih _ b hb d hd
      rcases hf with hf | hf
      · exact ⟨f, Or.inl (List.mem_cons_of_mem _ hf), hconv⟩
      · rcases List.mem_append.mp hf with hf | hf
        · exact ⟨f, Or.inr hf, hconv⟩
        · rcases List.mem_singleton.mp hf with rfl
          exact ⟨f, Or.inl (List.mem_cons_self _ _), hconv⟩

/-- Every successfully converted item appears in some emitted full-document
batch: conversion failures of other items never cause a successful one to be
dropped with its batch. -/
theorem extract_docs_loop_success_emitted {α β : Type} (convert : α → Option β)
    (batch_size : Nat) (files : List α) :
    ∀ files_batch (f : α), (f ∈ files ∨ f ∈ files_batch) →
      ∀ d, convert f = some d →
        ∃ b ∈ extract_docs_loop convert batch_size files files_batch, d ∈ b := by
  induction files with
  | nil =>
    intro files_batch f hf d hd
    rcases hf with hf | hf
    · simp at hf
    · have hdmem : d ∈ files_batch.filterMap convert :=
        List.mem_filterMap.mpr ⟨f, hf, hd⟩
    -- the accumulator is nonempty and its conversion output is nonempty
      have h1 : files_batch.isEmpty = false := by
        cases files_batch with
        | nil => simp at hf
        | cons a l => rfl
      have h2 : (files_batch.filterMap convert).isEmpty = false := by
        cases hfm : files_batch.filterMap convert with
        | nil => rw [hfm] at hdmem; simp at hdmem
        | cons a l => rfl
      refine ⟨files_batch.filterMap convert, ?_, hdmem⟩
      simp [extract_docs_loop, h1, h2]
  | cons f0 rest ih =>
    intro files_batch f hf d hd
    simp only [extract_docs_loop]
    by_cases hfull : batch_size ≤ (files_batch ++ [f0]).length
    · rw [if_pos hfull]
      have hcase : f ∈ rest ∨ f ∈ files_batch ++ [f0] := by
        rcases hf with hf | hf
        · rcases List.mem_cons.mp hf with rfl | hf
          · exact Or.inr (List.mem_append.mpr (Or.inr (List.mem_singleton.mpr rfl)))
          · exact Or.inl hf
        · exact Or.inr (List.mem_append.mpr (Or.inl hf))
      rcases hcase with hf2 | hf2
      · obtain ⟨b, hb, hdb⟩ := ih [] f (Or.inl hf2) d hd
        by_cases h2 : ((files_batch ++ [f0]).filterMap convert).isEmpty
        · rw [if_pos h2]
          exact ⟨b, hb, hdb⟩
        · rw [if_neg h2]
          exact ⟨b, List.mem_cons_of_mem _ hb, hdb⟩
      · have hdmem : d ∈ (files_batch ++ [f0]).filterMap convert :=
          List.mem_filterMap.mpr ⟨f, hf2, hd⟩
        have h2 : ((files_batch ++ [f0]).filterMap convert).isEmpty = false := by
          cases hfm : (files_batch ++ [f0]).filterMap convert with
          | nil => rw [hfm] at hdmem; simp at hdmem
          | cons a l => rfl
        rw [if_neg (show ¬((files_batch ++ [f0]).filterMap convert).isEmpty = true
          by rw [h2]; simp)]
        exact ⟨(files_batch ++ [f0]).filterMap convert,
          List.mem_cons_self _ _, hdmem⟩
    · rw [if_neg hfull]
      apply ih (files_batch ++ [f0]) f _ d hd
      rcases hf with hf | hf
      · rcases List.mem_cons.mp hf with rfl | hf
        · exact Or.inr (List.mem_append.mpr (Or.inr (List.mem_singleton.mpr rfl)))
        · exact Or.inl hf
      · exact Or.inr (List.mem_append.mpr (Or.inl hf))

/-- Emitted full-document batches never exceed the configured batch size. -/
theorem extract_docs_loop_length_le {α β : Type} (convert : α → Option β)
    (batch_size : Nat) (hbs : 0 < batch_size) (files : List α) :
    ∀ files_batch, files_batch.length < batch_size →
      ∀ b ∈ extract_docs_loop convert batch_size files files_batch,
        b.length ≤ batch_size := by
  induction files with
  | nil =>
    intro files_batch hacc b hb
    simp only [extract_docs_loop] at hb
    by_cases h1 : files_batch.isEmpty
    · simp [h1] at hb
    · rw [if_neg h1] at hb
      by_cases h2 : (files_batch.filterMap convert).isEmpty
      · simp [h2] at hb
      · rw [if_neg h2] at hb
        rcases List.mem_singleton.mp hb with rfl
        calc (files_batch.filterMap convert).length ≤ files_batch.length :=
              List.length_filterMap_le _ _
          _ ≤ batch_size := Nat.le_of_lt hacc
  | cons f0 rest ih =>
    intro files_batch hacc b hb
    simp only [extract_docs_loop] at hb
    by_cases hfull : batch_size ≤ (files_batch ++ [f0]).length
    · rw [if_pos hfull] at hb
      have hblen : ((files_batch ++ [f0]).filterMap convert).length ≤ batch_size := by
        calc ((files_batch ++ [f0]).filterMap convert).length
            ≤ (files_batch ++ [f0]).length := List.length_filterMap_le _ _
          _ ≤ batch_size := by
              simp only [List.length_append, List.length_singleton]
              omega
      by_cases h2 : ((files_batch ++ [f0]).filterMap convert).isEmpty
      · rw [if_pos h2] at hb
        exact ih [] (by simpa using hbs) b hb
      · rw [if_neg h2] at hb
        rcases List.mem_cons.mp hb with rfl | hb
        · exact hblen
        · exact ih [] (by simpa using hbs) b hb
    · rw [if_neg hfull] at hb
      exact ih _ (by omega) b hb

/-- The slim loop always emits at least one batch (the trailing one). -/
theorem extract_slim_docs_loop_ne_nil {α β : Type} (build_slim : α → Option β)
    (slim_batch_size : Nat) (has_callback : Bool) (should_stop : Nat → Bool)
    (files : List α) :
    ∀ slim_batch checks,
      (extract_slim_docs_loop build_slim slim_batch_size has_callback
        should_stop files slim_batch checks).1 ≠ [] := by
  induction files with
  | nil =>
    intro slim_batch checks
    simp [extract_slim_docs_loop]
  | cons f rest ih =>
    intro slim_batch checks
    simp only [extract_slim_docs_loop]
    by_cases hfull : slim_batch_size ≤
        (match build_slim f with
          | some doc => slim_batch ++ [doc]
          | none => slim_batch).length
    · rw [if_pos hfull]
      by_cases hstop : (has_callback && should_stop checks) = true
      · simp [hstop]
      · simp only [hstop, if_neg, Bool.not_eq_true, ne_eq]
        simp
    · rw [if_neg hfull]
      exact ih _ _

/-- Slim batches never exceed the configured size, and every batch other than
the last has exactly the configured size. -/
theorem extract_slim_docs_loop_lengths {α β : Type} (build_slim : α → Option β)
    (slim_batch_size : Nat) (hbs : 0 < slim_batch_size) (has_callback : Bool)
    (should_stop : Nat → Bool) (files : List α) :
    ∀ slim_batch checks, slim_batch.length < slim_batch_size →
      (∀ b ∈ (extract_slim_docs_loop build_slim slim_batch_size has_callback
          should_stop files slim_batch checks).1, b.length ≤ slim_batch_size) ∧
      (∀ b ∈ (extract_slim_docs_loop build_slim slim_batch_size has_callback
          should_stop files slim_batch checks).1.dropLast,
        b.length = slim_batch_size) := by
  induction files with
  | nil =>
    intro slim_batch checks hacc
    constructor
    · intro b hb
      simp only [extract_slim_docs_loop] at hb
      rcases List.mem_singleton.mp hb with rfl
      exact Nat.le_of_lt hacc
    · intro b hb
      simp [extract_slim_docs_loop] at hb
  | cons f rest ih =>
    intro slim_batch checks hacc
    simp only [extract_slim_docs_loop]
    have hlen1 : (match build_slim f with
        | some doc => slim_batch ++ [doc]
        | none => slim_batch).length ≤ slim_batch.length + 1 := by
      cases build_slim f <;> simp
    by_cases hfull : slim_batch_size ≤
        (match build_slim f with
          | some doc => slim_batch ++ [doc]
          | none => slim_batch).length
    · rw [if_pos hfull]
      have heq : (match build_slim f with
          | some doc => slim_batch ++ [doc]
          | none => slim_batch).length = slim_batch_size := by omega
      by_cases hstop : (has_callback && should_stop checks) = true
      · rw [if_pos hstop]
        constructor
        · intro b hb
          rcases List.mem_singleton.mp hb with rfl
          omega
        · intro b hb
          simp at hb
      · rw [if_neg hstop]
        obtain ⟨ih1, ih2⟩ := ih ([] : List β) (checks + 1) (by simpa using hbs)
        constructor
        · intro b hb
          rcases List.mem_cons.mp hb with rfl | hb
          · omega
          · exact ih1 b hb
        · intro b hb
          rw [List.dropLast_cons_of_ne_nil
            (extract_slim_docs_loop_ne_nil _ _ _ _ _ _ _)] at hb
          rcases List.mem_cons.mp hb with rfl | hb
          · exact heq
          · exact ih2 b hb
    · rw [if_neg hfull]
      exact ih _ checks (by omega)

/-- Every record in an emitted slim batch is the successful projection of
some input item (or carried in from the accumulator). -/
theorem extract_slim_docs_loop_provenance {α β : Type} (build_slim : α → Option β)
    (slim_batch_size : Nat) (has_callback : Bool) (should_stop : Nat → Bool)
    (files : List α) :
    ∀ slim_batch checks,
      ∀ b ∈ (extract_slim_docs_loop build_slim slim_batch_size has_callback
          should_stop files slim_batch checks).1, ∀ d ∈ b,
        (∃ f ∈ files, build_slim f = some d) ∨ d ∈ slim_batch := by
  induction files with
  | nil =>
    intro slim_batch checks b hb d hd
    simp only [extract_slim_docs_loop] at hb
    rcases List.mem_singleton.mp hb with rfl
    exact Or.inr hd
  | cons f rest ih =>
    intro slim_batch checks b hb d hd
    have hstep : ∀ x, x ∈ (match build_slim f with
        | some doc => slim_batch ++ [doc]
        | none => slim_batch) →
        (∃ g ∈ f :: rest, build_slim g = some x) ∨ x ∈ slim_batch := by
      intro x hx
      cases hbf : build_slim f with
      | some doc =>
        rw [hbf] at hx
        rcases List.mem_append.mp hx with hx | hx
        · exact Or.inr hx
        · rcases List.mem_singleton.mp hx with rfl
          exact Or.inl ⟨f, List.mem_cons_self _ _, hbf⟩
      | none =>
        rw [hbf] at hx
        exact Or.inr hx
    simp only [extract_slim_docs_loop] at hb
    by_cases hfull : slim_batch_size ≤
        (match build_slim f with
          | some doc => slim_batch ++ [doc]
          | none => slim_batch).length
    · rw [if_pos hfull] at hb
      by_cases hstop : (has_callback && should_stop checks) = true
      · rw [if_pos hstop] at hb
        rcases List.mem_singleton.mp hb with rfl
        rcases hstep d hd with h | h
        · obtain ⟨g, hg, hgd⟩ := h
          exact Or.inl ⟨g, hg, hgd⟩
        · exact Or.inr h
      · rw [if_neg hstop] at hb
        rcases List.mem_cons.mp hb with rfl | hb
        · rcases hstep d hd with h | h
          · exact Or.inl h
          · exact Or.inr h
        · rcases ih ([] : List β) (checks + 1) b hb d hd with h | h
          · obtain ⟨g, hg, hgd⟩ := h
            exact Or.inl ⟨g, List.mem_cons_of_mem _ hg, hgd⟩
          · simp at h
    · rw [if_neg hfull] at hb
      rcases ih _ checks b hb d hd with h | h
      · obtain ⟨g, hg, hgd⟩ := h
        exact Or.inl ⟨g, List.mem_cons_of_mem _ hg, hgd⟩
      · rcases hstep d h with h2 | h2
        · exact Or.inl h2
        · exact Or.inr h2

/-- When a callback is present and signals stop at the first check, the slim
loop emits exactly the one batch that triggered the check and then raises. -/
theorem extract_slim_docs_loop_stop_first {α β : Type} (build_slim : α → Option β)
    (slim_batch_size : Nat) (should_stop : Nat → Bool)
    (hstop : should_stop 0 = true) (files : List α) :
    ∀ slim_batch, slim_batch.length < slim_batch_size →
      slim_batch_size ≤ slim_batch.length + (files.filterMap build_slim).length →
      (extract_slim_docs_loop build_slim slim_batch_size true should_stop files
          slim_batch 0).1.length = 1 ∧
      (extract_slim_docs_loop build_slim slim_batch_size true should_stop files
          slim_batch 0).2 = true := by
  induction files with
  | nil =>
    intro slim_batch hacc hlen
    simp only [List.filterMap_nil, List.length_nil, Nat.add_zero] at hlen
    omega
  | cons f rest ih =>
    intro slim_batch hacc hlen
    simp only [extract_slim_docs_loop]
    cases hbf : build_slim f with
    | some doc =>
      simp only [hbf]
      by_cases hfull : slim_batch_size ≤ (slim_batch ++ [doc]).length
      · rw [if_pos hfull, if_pos (by simp [hstop])]
        simp
      · rw [if_neg hfull]
        apply ih
        · simp only [List.length_append, List.length_singleton] at hfull ⊢
          omega
        · rw [List.filterMap_cons, hbf] at hlen
          simp only [List.length_append, List.length_singleton,
            List.length_cons] at hlen ⊢
          omega
    | none =>
      simp only [hbf]
      rw [if_neg (by omega)]
      apply ih _ hacc
      rw [List.filterMap_cons, hbf] at hlen
      exact hlen

/-- C5 counterexample: the lightweight crawl on an empty item stream emits
exactly one batch and that batch is empty — the claim that no crawl operation
ever emits an empty batch is false for the slim path, whose trailing
`yield slim_batch` is unconditional. -/
theorem slim_empty_batch_counterexample :
    extract_slim_docs_from_google_drive (fun n : Nat => some n) 2 false
        (fun _ => false) [] = ([([] : List Nat)], false) := by
  rfl

/-- C5 amended: an item whose conversion fails is absent from every emitted
batch (full-document and slim paths); every successfully converted item
appears in an emitted full-document batch, so a batch holding at least one
success is emitted; the full-document path never emits an empty batch; the
lightweight path, however, always emits its trailing batch, which may be
empty. -/
theorem conversion_failure_batch_handling {α β γ δ : Type}
    (convert : α → Option β) (batch_size : Nat) (files : List α)
    (build_slim : γ → Option δ) (slim_batch_size : Nat) (has_callback : Bool)
    (should_stop : Nat → Bool) (slim_files : List γ) :
    (∀ b ∈ extract_docs_from_google_drive convert batch_size files,
      b ≠ [] ∧ ∀ d ∈ b, ∃ f, f ∈ files ∧ convert f = some d) ∧
    (∀ f ∈ files, ∀ d, convert f = some d →
      ∃ b ∈ extract_docs_from_google_drive convert batch_size files, d ∈ b) ∧
    (∀ b ∈ (extract_slim_docs_from_google_drive build_slim slim_batch_size
        has_callback should_stop slim_files).1, ∀ d ∈ b,
      ∃ f, f ∈ slim_files ∧ build_slim f = some d) := by
  refine ⟨?_, ?_, ?_⟩
  · intro b hb
    refine ⟨extract_docs_loop_ne_nil convert batch_size files [] b hb, ?_⟩
    intro d hd
    obtain ⟨f, hf, hconv⟩ :=
      extract_docs_loop_provenance convert batch_size files [] b hb d hd
    rcases hf with hf | hf
    · exact ⟨f, hf, hconv⟩
    · simp at hf
  · intro f hf d hd
    exact extract_docs_loop_success_emitted convert batch_size files []
      f (Or.inl hf) d hd
  · intro b hb d hd
    rcases extract_slim_docs_loop_provenance build_slim slim_batch_size
        has_callback should_stop slim_files [] 0 b hb d hd with h | h
    · obtain ⟨f, hf, hconv⟩ := h
      exact ⟨f, hf, hconv⟩
    · simp at h

/-- Witness for the amended C5 at a concrete input: converting `[0, 1]` with a
conversion that fails on `0` emits exactly the batch `[1]`, and that batch is
nonempty. -/
theorem conversion_failure_batch_handling_witness :
    extract_docs_from_google_drive
        (fun n : Nat => if n = 0 then none else some n) 2 [0, 1] = [[1]] ∧
    ([1] : List Nat) ≠ [] :=
  ⟨by decide,
    ((conversion_failure_batch_handling
        (fun n : Nat => if n = 0 then none else some n) 2 [0, 1]
        (fun n : Nat => some n) 2 false (fun _ => false) []).1
      [1] (by decide)).1⟩

/-- C6 counterexample: in the lightweight path with a callback that signals
stop after the first batch, exactly one batch is emitted but the run then
terminates by raising the stop-signal `RuntimeError` (the `true` flag) — not
"without error" as the claim states. -/
theorem slim_stop_raises_counterexample :
    extract_slim_docs_from_google_drive (fun n : Nat => some n) 2 true
        (fun _ => true) [0, 1, 2, 3] = ([[0, 1]], true) := by
  rfl

/-- C6 amended: in lightweight mode with a callback whose stop signal is set
at the first check, a stream holding enough successfully projected items to
fill one batch yields exactly one emitted batch, and the run terminates by
raising the stop-signal `RuntimeError` (recorded as the `true` flag) before
any second batch is produced. -/
theorem slim_stop_after_first_batch {α β : Type} (build_slim : α → Option β)
    (slim_batch_size : Nat) (should_stop : Nat → Bool) (files : List α)
    (hbs : 0 < slim_batch_size) (hstop : should_stop 0 = true)
    (hlen : slim_batch_size ≤ (files.filterMap build_slim).length) :
    (extract_slim_docs_from_google_drive build_slim slim_batch_size true
        should_stop files).1.length = 1 ∧
    (extract_slim_docs_from_google_drive build_slim slim_batch_size true
        should_stop files).2 = true :=
  extract_slim_docs_loop_stop_first build_slim slim_batch_size should_stop
    hstop files [] (by simpa using hbs) (by simpa using hlen)

/-- Witness for the amended C6 at a concrete input. -/
theorem slim_stop_after_first_batch_witness :
    (extract_slim_docs_from_google_drive (fun n : Nat => some n) 2 true
        (fun _ => true) [0, 1, 2, 3]).1.length = 1 ∧
    (extract_slim_docs_from_google_drive (fun n : Nat => some n) 2 true
        (fun _ => true) [0, 1, 2, 3]).2 = true :=
  slim_stop_after_first_batch (fun n : Nat => some n) 2 (fun _ => true)
    [0, 1, 2, 3] (by decide) rfl (by decide)

/-- C8 counterexample: with batch size 2, a stream of three items whose first
conversion fails emits `[[1], [2]]` — the first batch has 1 < 2 records yet is
not the final batch, so "only the final batch may be smaller" is false for the
full-document path. -/
theorem nonfinal_small_batch_counterexample :
    extract_docs_from_google_drive
        (fun n : Nat => if n = 0 then none else some n) 2 [0, 1, 2] =
      [[1], [2]] := by
  decide

/-- C8 amended: every batch emitted by either crawl path contains at most the
configured batch size of records; in the lightweight path every non-final
batch contains exactly `SLIM_BATCH_SIZE` records, so only its final batch can
be smaller; in the full-document path a non-final batch can also be smaller
when conversion failures drop items from it. -/
theorem batch_size_bounds {α β γ δ : Type} (convert : α → Option β)
    (batch_size : Nat) (hbs : 0 < batch_size) (files : List α)
    (build_slim : γ → Option δ) (slim_batch_size : Nat)
    (hsbs : 0 < slim_batch_size) (has_callback : Bool)
    (should_stop : Nat → Bool) (slim_files : List γ) :
    (∀ b ∈ extract_docs_from_google_drive convert batch_size files,
      b.length ≤ batch_size) ∧
    (∀ b ∈ (extract_slim_docs_from_google_drive build_slim slim_batch_size
        has_callback should_stop slim_files).1, b.length ≤ slim_batch_size) ∧
    (∀ b ∈ (extract_slim_docs_from_google_drive build_slim slim_batch_size
        has_callback should_stop slim_files).1.dropLast,
      b.length = slim_batch_size) := by
  obtain ⟨hs1, hs2⟩ := extract_slim_docs_loop_lengths build_slim slim_batch_size
    hsbs has_callback should_stop slim_files [] 0 (by simpa using hsbs)
  exact ⟨extract_docs_loop_length_le convert batch_size hbs files []
    (by simpa using hbs), hs1, hs2⟩

/-- Witness for the amended C8 at a concrete input: the slim crawl of
`[5, 6, 7]` with batch size 2 emits `[[5, 6], [7]]`; its non-final batch
`[5, 6]` has exactly 2 records. -/
theorem batch_size_bounds_witness :
    (extract_slim_docs_from_google_drive (fun n : Nat => some n) 2 false
        (fun _ => false) [5, 6, 7]).1.dropLast = [[5, 6]] ∧
    ([5, 6] : List Nat).length = 2 :=
  ⟨by decide,
    (batch_size_bounds (fun n : Nat => some n) 2 (by decide) []
        (fun n : Nat => some n) 2 (by decide) false (fun _ => false)
        [5, 6, 7]).2.2 [5, 6] (by decide)⟩

end GoogleDrive
